import Mathlib

/-!
Verification of the static-analysis core of the project-scanner repository.

The development shallowly embeds the Python sources:
  * `parser.py`   (CodeParser: file reading, AST walk, record extraction),
  * `analyzer.py` (CodeAnalyzer: call graph and the five heuristic passes),
  * `main.py`     (ProjectAnalyzer.save_results / load_results, i.e. the
                   JSON persistence of the assembled result).

Machine strings are Lean `String`s; the handful of Python string methods the
source uses (`strip`, `split`, `join`, `startswith`, `endswith`, substring
containment, utf-8 encoding length) are re-implemented over `List Char`
because the corresponding `String` library functions do not reduce inside the
kernel.  Python lists are Lean lists; Python sets are lists queried by
membership (only membership is ever used on them in the source).
-/

/-! ## String helpers (models of the Python string methods used) -/

/-- Model of Python substring containment: `listHasSub pat l` is true when the
character list `pat` occurs contiguously inside `l`. -/
def listHasSub (pat : List Char) : List Char → Bool
  | [] => pat == []
  | c :: rest => pat.isPrefixOf (c :: rest) || listHasSub pat rest

/-- Model of the Python expression `pat in s` on strings. -/
def strHasSub (s pat : String) : Bool :=
  listHasSub pat.data s.data

/-- Model of Python `s.startswith(pre)`. -/
def strStartsWith (s pre : String) : Bool :=
  pre.data.isPrefixOf s.data

/-- Model of Python `s.endswith(suf)`. -/
def strEndsWith (s suf : String) : Bool :=
  suf.data.isSuffixOf s.data

/-- Model of Python `s.strip()` (with the ASCII whitespace set). -/
def pyStrip (s : String) : String :=
  ⟨((s.data.dropWhile Char.isWhitespace).reverse.dropWhile Char.isWhitespace).reverse⟩

/-- Model of Python `s.split(sep)` for a single-character separator: splits at
every occurrence of `sep`, keeping empty pieces. -/
def splitCharAux (sep : Char) : List Char → List Char → List (List Char)
  | [], acc => [acc.reverse]
  | c :: rest, acc =>
    if c == sep then acc.reverse :: splitCharAux sep rest []
    else splitCharAux sep rest (c :: acc)

/-- Model of Python `content.split(newline)`. -/
def splitLines (s : String) : List String :=
  (splitCharAux '\n' s.data []).map (fun l => ⟨l⟩)

/-- Model of Python `sep.join(lines)` for the newline separator. -/
def joinLines (lines : List String) : String :=
  ⟨List.intercalate ['\n'] (lines.map String.data)⟩

/-- Model of Python `len(content.encode(utf8))`: the utf-8 byte length. -/
def utf8Len (s : String) : Nat :=
  s.data.foldl (fun n c => n + c.utf8Size) 0

/-! ## Data model (the record dictionaries produced by `parser.py`) -/

/-- FunctionRecord: the dictionary returned by `CodeParser._extract_function`.
The source dictionary also carries a `docstring` key, which no analysis pass
reads; it is omitted here.  The `in_main_block` key is never written by the
parser; the analyzer reads it with `func.get(..., False)`, which the field
default models. -/
structure FuncRecord where
  name : String
  file : String
  line_start : Nat
  line_end : Nat
  params : List String
  return_type : Option String
  code : String
  calls : List String
  is_async : Bool
  decorators : List String
  in_main_block : Bool := false
deriving Repr, DecidableEq

instance : Inhabited FuncRecord :=
  ⟨{ name := "", file := "", line_start := 0, line_end := 0, params := [],
     return_type := none, code := "", calls := [], is_async := false,
     decorators := [] }⟩

/-- ImportRecord: the dictionary appended by `CodeParser._extract_import`. -/
structure ImportRecord where
  file : String
  line : Nat
  module : String
  names : List String
  al : Option String
deriving Repr, DecidableEq

/-- ClassRecord: the dictionary returned by `CodeParser._extract_class`
(docstring omitted; no pass reads it). -/
structure ClassRecord where
  name : String
  file : String
  line_start : Nat
  line_end : Nat
  methods : List FuncRecord
  bases : List String
deriving Repr, DecidableEq

/-- The aggregate `parsed_data` dictionary of `CodeParser` (the `files` key is
initialised to the empty list and never written by the parser; the
`call_graph` key is filled by `main.py` and unused by the analyzer). -/
structure ParsedData where
  functions : List FuncRecord
  classes : List ClassRecord
  imports : List ImportRecord
deriving Repr, DecidableEq

/-- The empty `parsed_data` a fresh `CodeParser` starts from. -/
def emptyParsed : ParsedData := ⟨[], [], []⟩

/-- Issue: the dictionaries appended to `CodeAnalyzer.issues`.  The
`unused_import` issues carry no `function` key, modelled by `none`. -/
structure Issue where
  type : String
  severity : String
  file : String
  line : Nat
  function : Option String
  message : String
deriving Repr, DecidableEq

/-! ## The networkx directed graph, as used by `analyzer.py`

Only `add_node`, `add_edge` and `in_degree` are used by the source.  A
`networkx.DiGraph` is a simple digraph: repeated insertions are ignored, and
`add_edge` inserts both endpoints as nodes when absent. -/

structure DiGraph where
  nodes : List String
  edges : List (String × String)
deriving Repr, DecidableEq

/-- Model of `networkx.DiGraph.add_node`. -/
def DiGraph.add_node (g : DiGraph) (n : String) : DiGraph :=
  if n ∈ g.nodes then g else { g with nodes := g.nodes ++ [n] }

/-- Model of `networkx.DiGraph.add_edge`: both endpoints are added as nodes,
then the edge is added if not already present. -/
def DiGraph.add_edge (g : DiGraph) (u v : String) : DiGraph :=
  let g1 := (g.add_node u).add_node v
  if (u, v) ∈ g1.edges then g1 else { g1 with edges := g1.edges ++ [(u, v)] }

/-- Model of `networkx.DiGraph.in_degree`: the number of edges ending at `v`
(in a simple digraph, parallel edges collapse; a self-loop counts once). -/
def DiGraph.in_degree (g : DiGraph) (v : String) : Nat :=
  (g.edges.filter (fun e => e.2 == v)).length

/-- Model of `CodeAnalyzer._build_graph`: one node per function record and one
edge per call-site name of each record. -/
def build_graph (functions : List FuncRecord) : DiGraph :=
  functions.foldl
    (fun g func =>
      (func.calls.foldl (fun g called => g.add_edge func.name called)
        (g.add_node func.name)))
    ⟨[], []⟩

/-! ## The analyzer passes (`analyzer.py`) -/

/-- The `CodeAnalyzer.BUILTINS` allow-list, verbatim from the source (the
source writes it as a set literal; membership is all that is ever queried). -/
def BUILTINS : List String :=
  [ "print", "len", "range", "str", "int", "float", "list", "dict", "set", "tuple",
    "open", "input", "type", "isinstance", "issubclass", "hasattr", "getattr", "setattr",
    "delattr", "dir", "vars", "help", "min", "max", "sum", "abs", "round", "sorted",
    "reversed", "enumerate", "zip", "map", "filter", "all", "any", "next", "iter",
    "callable", "format", "repr", "eval", "exec", "compile", "chr", "ord", "bin", "hex",
    "oct", "id", "hash", "object", "property", "staticmethod", "classmethod",
    "upper", "lower", "title", "capitalize", "strip", "lstrip", "rstrip", "split",
    "join", "replace", "find", "rfind", "index", "count", "startswith", "endswith",
    "isalpha", "isdigit", "isalnum", "isspace", "islower", "isupper",
    "append", "extend", "insert", "remove", "pop", "clear", "index", "count", "sort",
    "reverse", "copy", "add", "update", "discard",
    "keys", "values", "items", "get", "setdefault", "update", "pop", "popitem",
    "read", "write", "readline", "readlines", "writelines", "close", "flush", "seek", "tell",
    "exists", "is_file", "is_dir", "mkdir", "rmdir", "unlink", "rename", "absolute",
    "resolve", "parent", "name", "stem", "suffix",
    "load", "loads", "dump", "dumps",
    "ValueError", "TypeError", "KeyError", "IndexError", "AttributeError", "RuntimeError",
    "NotImplementedError", "Exception", "BaseException" ]

/-- The entry-point list of `find_dead_code`. -/
def ENTRY_POINTS : List String :=
  ["main", "__init__", "__main__", "__call__", "__str__", "__repr__"]

/-- The issue appended by `find_dead_code`. -/
def dead_code_issue (func : FuncRecord) : Issue :=
  { type := "dead_code", severity := "warning", file := func.file,
    line := func.line_start, function := some func.name,
    message := "Function \x27" ++ func.name ++ "\x27 is never called" }

/-- Model of `CodeAnalyzer.find_dead_code`, the chain of `continue` guards
followed by the in-degree test, exactly as in the source. -/
def find_dead_code (functions : List FuncRecord) (call_graph : DiGraph) : List Issue :=
  functions.filterMap (fun func =>
    if func.name ∈ ENTRY_POINTS then none
    else if strStartsWith func.name "__" && strEndsWith func.name "__" then none
    else if func.in_main_block then none
    else if call_graph.in_degree func.name == 0 then some (dead_code_issue func)
    else none)

/-- The issue appended by `find_broken_calls`. -/
def broken_call_issue (func : FuncRecord) (called : String) : Issue :=
  { type := "broken_call", severity := "error", file := func.file,
    line := func.line_start, function := some func.name,
    message := "Calls undefined function \x27" ++ called ++ "\x27" }

/-- Model of `CodeAnalyzer.find_broken_calls`: `all_functions` is the name set
of the records, `all_imports` is the module names together with every entry of
every `names` list; each call occurrence failing all four exemptions yields
one error. -/
def find_broken_calls (functions : List FuncRecord) (imports : List ImportRecord) :
    List Issue :=
  let all_functions := functions.map (fun f => f.name)
  let all_imports := imports.map (fun imp => imp.module) ++
    imports.flatMap (fun imp => imp.names)
  functions.flatMap (fun func =>
    func.calls.filterMap (fun called =>
      if called ∈ BUILTINS then none
      else if strStartsWith called "_" then none
      else if called ∈ all_functions then none
      else if called ∈ all_imports then none
      else some (broken_call_issue func called)))

/-- Model of `CodeAnalyzer.find_placeholders`: three independent textual
checks on the stored code of each record, each appending its own issue. -/
def find_placeholders (functions : List FuncRecord) : List Issue :=
  functions.flatMap (fun func =>
    (if pyStrip func.code == "pass" then
      [{ type := "placeholder", severity := "warning", file := func.file,
         line := func.line_start, function := some func.name,
         message := "Function \x27" ++ func.name ++ "\x27 is empty (only \x27pass\x27)" }]
     else []) ++
    (if strHasSub func.code "TODO" || strHasSub func.code "FIXME" then
      [{ type := "placeholder", severity := "info", file := func.file,
         line := func.line_start, function := some func.name,
         message := "Function \x27" ++ func.name ++ "\x27 has TODO/FIXME comment" }]
     else []) ++
    (if strHasSub func.code "NotImplementedError" then
      [{ type := "placeholder", severity := "warning", file := func.file,
         line := func.line_start, function := some func.name,
         message := "Function \x27" ++ func.name ++ "\x27 raises NotImplementedError" }]
     else []))

/-- The issue appended by `find_missing_returns`. -/
def missing_return_issue (func : FuncRecord) : Issue :=
  { type := "missing_return", severity := "error", file := func.file,
    line := func.line_start, function := some func.name,
    message := "Function expects return type \x27" ++
      (func.return_type.getD "") ++ "\x27 but has no return" }

/-- Model of the Python truthiness test `if func.get(return_type)` on an
optional string: false for an absent value and for the empty string. -/
def pyTruthyStr : Option String → Bool
  | none => false
  | some s => s != ""

/-- Model of `CodeAnalyzer.find_missing_returns`: records with a truthy
return-type annotation other than the literal None whose stored code lacks
the substring of the return keyword get one error each. -/
def find_missing_returns (functions : List FuncRecord) : List Issue :=
  functions.filterMap (fun func =>
    if pyTruthyStr func.return_type && func.return_type != some "None" then
      if !(strHasSub func.code "return") then some (missing_return_issue func)
      else none
    else none)

/-- The issue appended by `find_unused_imports` (no `function` key). -/
def unused_import_issue (file imp_name : String) : Issue :=
  { type := "unused_import", severity := "info", file := file, line := 0,
    function := none,
    message := "Import \x27" ++ imp_name ++ "\x27 is not used" }

/-- The key order of the Python dictionary `imports_by_file`: files in order
of first occurrence among the import records. -/
def import_files (imports : List ImportRecord) : List String :=
  imports.foldl (fun acc imp => if imp.file ∈ acc then acc else acc ++ [imp.file]) []

/-- The value stored under `file` in `imports_by_file`: the concatenation of
the `names` lists of the import records of that file, in record order. -/
def import_names_for (imports : List ImportRecord) (file : String) : List String :=
  (imports.filter (fun imp => imp.file == file)).flatMap (fun imp => imp.names)

/-- The `used_names` set of a file: every call-site name of every function
record of that file. -/
def used_names_in (functions : List FuncRecord) (file : String) : List String :=
  (functions.filter (fun f => f.file == file)).flatMap (fun f => f.calls)

/-- Model of `CodeAnalyzer.find_unused_imports`: group imports by file, then
flag every imported name of the file that is not among the call-site names of
the functions of that file, at line 0. -/
def find_unused_imports (functions : List FuncRecord) (imports : List ImportRecord) :
    List Issue :=
  (import_files imports).flatMap (fun file =>
    (import_names_for imports file).filterMap (fun imp_name =>
      if imp_name ∈ used_names_in functions file then none
      else some (unused_import_issue file imp_name)))

/-- Model of `CodeAnalyzer.analyze`: the five passes append to one shared
issue list in this fixed order. -/
def analyze (pd : ParsedData) : List Issue :=
  let call_graph := build_graph pd.functions
  find_dead_code pd.functions call_graph ++
  find_broken_calls pd.functions pd.imports ++
  find_placeholders pd.functions ++
  find_missing_returns pd.functions ++
  find_unused_imports pd.functions pd.imports

/-! ## The Python AST and the extractor (`parser.py`)

A shallow model of the Python `ast` nodes the extractor inspects.  Function
and class declarations, imports and call expressions are explicit
constructors; every other statement or expression kind is `other`, carrying
its child nodes.  Name and attribute call targets keep only the data the
extractor reads (the identifier, respectively the trailing attribute name).
Argument lists, annotations and decorator lists are stored as the plain data
the extractor would read off them (`arg.arg` strings, the unparsed annotation
text, decorator names); their sub-expressions are not modelled as nodes.
Importantly, `functionDef` and `asyncFunctionDef` are distinct constructors,
exactly as `ast.FunctionDef` and `ast.AsyncFunctionDef` are distinct,
unrelated node classes in Python. -/

inductive PyNode where
  | functionDef (name : String) (lineno end_lineno : Nat) (args : List String)
      (returns : Option String) (body : List PyNode) (decorators : List String)
  | asyncFunctionDef (name : String) (lineno end_lineno : Nat) (args : List String)
      (returns : Option String) (body : List PyNode) (decorators : List String)
  | classDef (name : String) (lineno end_lineno : Nat) (bases : List String)
      (body : List PyNode)
  | importStmt (lineno : Nat) (aliases : List (String × Option String))
  | importFrom (lineno : Nat) (module : Option String)
      (aliases : List (String × Option String))
  | callName (id : String) (args : List PyNode)
  | callAttr (attr : String) (args : List PyNode)
  | other (children : List PyNode)
deriving Repr

/-- The child nodes of a node, as `ast.iter_child_nodes` would yield them for
the modelled constructors. -/
def pyChildren : PyNode → List PyNode
  | .functionDef _ _ _ _ _ body _ => body
  | .asyncFunctionDef _ _ _ _ _ body _ => body
  | .classDef _ _ _ _ body => body
  | .importStmt _ _ => []
  | .importFrom _ _ _ => []
  | .callName _ args => args
  | .callAttr _ args => args
  | .other children => children

/-- Fuel-bounded breadth-first enumeration of a queue of nodes; the fuel is
an upper bound on the number of steps, used only to make the recursion
structural (so that the function reduces inside the kernel). -/
def pyWalkFuel : Nat → List PyNode → List PyNode
  | 0, _ => []
  | _ + 1, [] => []
  | fuel + 1, n :: queue => n :: pyWalkFuel fuel (queue ++ pyChildren n)

mutual
/-- The number of nodes of a tree. -/
def pySize : PyNode → Nat
  | .functionDef _ _ _ _ _ body _ => 1 + pySizeList body
  | .asyncFunctionDef _ _ _ _ _ body _ => 1 + pySizeList body
  | .classDef _ _ _ _ body => 1 + pySizeList body
  | .importStmt _ _ => 1
  | .importFrom _ _ _ => 1
  | .callName _ args => 1 + pySizeList args
  | .callAttr _ args => 1 + pySizeList args
  | .other children => 1 + pySizeList children
/-- The total number of nodes of a list of trees. -/
def pySizeList : List PyNode → Nat
  | [] => 0
  | n :: rest => pySize n + pySizeList rest
end

/-- Model of `ast.walk`: breadth-first enumeration of a queue of nodes and,
recursively, of all their descendants.  The number of nodes bounds the number
of steps, so the fuel never runs out (`pyWalk_nil` / `pyWalk_cons` below
recover the usual recursion equations). -/
def pyWalk (l : List PyNode) : List PyNode := pyWalkFuel (pySizeList l + 1) l

theorem pySize_pos (n : PyNode) : 0 < pySize n := by
  cases n <;> simp [pySize] <;> omega

theorem pySizeList_append (l1 l2 : List PyNode) :
    pySizeList (l1 ++ l2) = pySizeList l1 + pySizeList l2 := by
  induction l1 with
  | nil => simp [pySizeList]
  | cons a t ih => simp [pySizeList, ih]; omega

theorem pySizeList_children_lt (n : PyNode) : pySizeList (pyChildren n) < pySize n := by
  cases n <;> simp [pySize, pyChildren, pySizeList] <;> omega

/-- The walk does not depend on the fuel, as long as the fuel is sufficient. -/
theorem pyWalkFuel_congr : ∀ (fuel1 fuel2 : Nat) (l : List PyNode),
    pySizeList l ≤ fuel1 → pySizeList l ≤ fuel2 →
    pyWalkFuel fuel1 l = pyWalkFuel fuel2 l := by
  intro fuel1
  induction fuel1 with
  | zero =>
    intro fuel2 l h1 h2
    cases l with
    | nil => cases fuel2 <;> rfl
    | cons n q =>
      exfalso
      have hn := pySize_pos n
      simp [pySizeList] at h1
      omega
  | succ f1 ih =>
    intro fuel2 l h1 h2
    cases l with
    | nil => cases fuel2 <;> rfl
    | cons n q =>
      have hn := pySize_pos n
      have hsz : pySizeList (n :: q) = pySize n + pySizeList q := rfl
      cases fuel2 with
      | zero => exfalso; omega
      | succ f2 =>
        show n :: pyWalkFuel f1 (q ++ pyChildren n) =
          n :: pyWalkFuel f2 (q ++ pyChildren n)
        have hc := pySizeList_children_lt n
        have happ := pySizeList_append q (pyChildren n)
        rw [ih f2 _ (by omega) (by omega)]

theorem pyWalk_nil : pyWalk [] = [] := rfl

/-- The recursion equation of `ast.walk`: yield the head of the queue, then
continue on the rest of the queue extended with the children of the head. -/
theorem pyWalk_cons (n : PyNode) (queue : List PyNode) :
    pyWalk (n :: queue) = n :: pyWalk (queue ++ pyChildren n) := by
  unfold pyWalk
  have hn := pySize_pos n
  have hc := pySizeList_children_lt n
  have happ := pySizeList_append queue (pyChildren n)
  have hsz : pySizeList (n :: queue) = pySize n + pySizeList queue := rfl
  show n :: pyWalkFuel (pySizeList (n :: queue)) (queue ++ pyChildren n) = _
  congr 1
  exact pyWalkFuel_congr _ _ _ (by omega) (by omega)

/-- Model of the call-collection loop of `_extract_function`: walk the whole
sub-tree of the node and keep, for every call expression, the bare identifier
or the trailing attribute name. -/
def collect_calls (node : PyNode) : List String :=
  (pyWalk [node]).filterMap (fun sub =>
    match sub with
    | .callName id _ => some id
    | .callAttr attr _ => some attr
    | _ => none)

/-- Model of `lines[line_start - 1:line_end]` followed by the newline join:
the verbatim code slice stored on a record, computed from the file content. -/
def sliceCode (content : String) (line_start line_end : Nat) : String :=
  joinLines (((splitLines content).drop (line_start - 1)).take
    (line_end - (line_start - 1)))

/-- Model of `isinstance(node, ast.AsyncFunctionDef)`. -/
def pyIsAsync : PyNode → Bool
  | .asyncFunctionDef _ _ _ _ _ _ _ => true
  | _ => false

/-- Model of `CodeParser._extract_function`, reading the attributes of a
(possibly async) function-definition node.  On any other node kind the
source would fault; the model returns the default record. -/
def extract_function (node : PyNode) (file_name content : String) : FuncRecord :=
  match node with
  | .functionDef name lineno end_lineno args returns _ decorators =>
    { name := name, file := file_name, line_start := lineno, line_end := end_lineno,
      params := args, return_type := returns,
      code := sliceCode content lineno end_lineno,
      calls := collect_calls node, is_async := pyIsAsync node,
      decorators := decorators.map (fun d => "@" ++ d) }
  | .asyncFunctionDef name lineno end_lineno args returns _ decorators =>
    { name := name, file := file_name, line_start := lineno, line_end := end_lineno,
      params := args, return_type := returns,
      code := sliceCode content lineno end_lineno,
      calls := collect_calls node, is_async := pyIsAsync node,
      decorators := decorators.map (fun d => "@" ++ d) }
  | _ => default

/-- Model of `isinstance(node, ast.FunctionDef)`: true exactly for the
synchronous function-definition node class.  `ast.AsyncFunctionDef` is not a
subclass of `ast.FunctionDef`, so async definitions do not match. -/
def pyIsFunctionDef : PyNode → Bool
  | .functionDef _ _ _ _ _ _ _ => true
  | _ => false

/-- Model of `CodeParser._extract_class` (docstring omitted): the methods are
the direct body items matching `isinstance(item, ast.FunctionDef)`. -/
def extract_class (node : PyNode) (file_name content : String) : ClassRecord :=
  match node with
  | .classDef name lineno end_lineno bases body =>
    { name := name, file := file_name, line_start := lineno, line_end := end_lineno,
      methods := (body.filter pyIsFunctionDef).map
        (fun item => extract_function item file_name content),
      bases := bases }
  | _ => { name := "", file := file_name, line_start := 0, line_end := 0,
           methods := [], bases := [] }

/-- Model of `CodeParser._extract_import`: the import records appended for
one import node. -/
def extract_import (node : PyNode) (file_name : String) : List ImportRecord :=
  match node with
  | .importStmt lineno aliases =>
    aliases.map (fun a => { file := file_name, line := lineno, module := a.1,
                            names := [a.1], al := a.2 })
  | .importFrom lineno module aliases =>
    [{ file := file_name, line := lineno, module := module.getD "",
       names := aliases.map (fun a => a.1),
       al := if aliases.length == 1 then (aliases.headD ("", none)).2 else none }]
  | _ => []

/-- Model of `CodeParser._extract_python`: walk the whole tree and append a
record for every node matching one of the three `isinstance` tests.  Async
function definitions match none of them (see `pyIsFunctionDef`). -/
def extract_python (tree : PyNode) (file_name content : String) (pd : ParsedData) :
    ParsedData :=
  (pyWalk [tree]).foldl
    (fun pd node =>
      match node with
      | .functionDef _ _ _ _ _ _ _ =>
        { pd with functions := pd.functions ++ [extract_function node file_name content] }
      | .classDef _ _ _ _ _ =>
        { pd with classes := pd.classes ++ [extract_class node file_name content] }
      | .importStmt _ _ =>
        { pd with imports := pd.imports ++ extract_import node file_name }
      | .importFrom _ _ _ =>
        { pd with imports := pd.imports ++ extract_import node file_name }
      | _ => pd)
    pd

/-! ## File-level parsing (`CodeParser.parse_file` / `parse_project`)

Reading a file and running `ast.parse` are effects; the model carries their
outcomes on the file value: `read` is the outcome of opening and reading the
file (which raises `UnicodeDecodeError` on undecodable bytes), `parsed` the
outcome of `ast.parse` on the decoded text (which raises `SyntaxError` on
malformed source).  The `name` field models `file_path.name`, `ext` models
`file_path.suffix`. -/

inductive FileContent where
  | decodeError
  | text (content : String)
deriving Repr, DecidableEq

inductive ParseOutcome where
  | syntaxError
  | tree (t : PyNode)
deriving Repr

structure SrcFile where
  name : String
  ext : String
  read : FileContent
  parsed : ParseOutcome
deriving Repr

/-- The diagnostics the source logs for a skipped file. -/
inductive LogEvent where
  | tooLarge
  | encodingError
  | syntaxError
deriving Repr, DecidableEq

/-- Model of `CodeParser.parse_file`: read, size-check against the configured
maximum, then parse and extract for Python files.  Every failure is caught:
the function always returns, with the parsed data unchanged and a diagnostic
recorded for a skipped file. -/
def parse_file (max_file_size : Nat) (f : SrcFile) (pd : ParsedData) :
    ParsedData × Option LogEvent :=
  match f.read with
  | .decodeError => (pd, some .encodingError)
  | .text content =>
    if utf8Len content > max_file_size then (pd, some .tooLarge)
    else if f.ext == ".py" then
      match f.parsed with
      | .syntaxError => (pd, some .syntaxError)
      | .tree t => (extract_python t f.name content pd, none)
    else (pd, none)

/-- Model of the per-file loop of `CodeParser.parse_project`: fold
`parse_file` over the eligible files, accumulating the diagnostics. -/
def parse_files (max_file_size : Nat) (files : List SrcFile) (pd : ParsedData) :
    ParsedData × List LogEvent :=
  match files with
  | [] => (pd, [])
  | f :: rest =>
    let r := parse_file max_file_size f pd
    let r2 := parse_files max_file_size rest r.1
    (r2.1, r.2.toList ++ r2.2)

/-- The condition under which `parse_file` skips a file: undecodable content,
oversized content, or a Python file whose source fails to parse. -/
def file_skipped (max_file_size : Nat) (f : SrcFile) : Bool :=
  match f.read with
  | .decodeError => true
  | .text content =>
    utf8Len content > max_file_size ||
      (f.ext == ".py" &&
        (match f.parsed with | .syntaxError => true | .tree _ => false))

/-! ## The persisted JSON document (`main.py` save_results / load_results)

`ProjectAnalyzer.save_results` writes the assembled result with `json.dump`
and `load_results` reads it back with `json.load`.  The document is a JSON
value: the assembled result is a dictionary with string keys whose leaves are
strings, non-negative integers (line numbers and counts), booleans and nulls.
`JValue` models such documents (numbers as `Nat`, since every number in the
assembled result is a count or a line number); `save_results` renders the
document to text (compactly; the indentation `json.dump` adds is cosmetic
inter-token whitespace) and `load_results` parses the text back.  The escape
model covers the characters `json.dump` escapes that can occur here: the
quote, the backslash, newline, tab and carriage return; other characters are
emitted verbatim (`ensure_ascii` is false in the source). -/

mutual
inductive JValue where
  | null
  | jbool (b : Bool)
  | jnum (n : Nat)
  | jstr (s : String)
  | jarr (a : JArr)
  | jobj (o : JObj)
inductive JArr where
  | anil
  | acons (v : JValue) (rest : JArr)
inductive JObj where
  | onil
  | ocons (key : String) (v : JValue) (rest : JObj)
end

/-- The decimal digit character of a digit value (total, with values ten and
above clamped; only digits below ten are ever produced). -/
def digitChar : Nat → Char
  | 0 => '0' | 1 => '1' | 2 => '2' | 3 => '3' | 4 => '4'
  | 5 => '5' | 6 => '6' | 7 => '7' | 8 => '8' | _ => '9'

/-- Decimal rendering of a natural number, most significant digit first. -/
def renderNat (n : Nat) : List Char :=
  if n == 0 then ['0'] else (Nat.digits 10 n).reverse.map digitChar

/-- The JSON escape of one character (quote, backslash, newline, tab and
carriage return escaped; everything else verbatim). -/
def escapeChar (c : Char) : List Char :=
  if c == '\x22' then ['\x5c', '\x22']
  else if c == '\x5c' then ['\x5c', '\x5c']
  else if c == '\n' then ['\x5c', 'n']
  else if c == '\t' then ['\x5c', 't']
  else if c == '\r' then ['\x5c', 'r']
  else [c]

/-- A JSON string literal: quote, escaped characters, quote. -/
def renderStr (s : String) : List Char :=
  '\x22' :: (s.data.flatMap escapeChar ++ ['\x22'])

mutual
/-- Rendering of a JSON document to text, as `json.dump` (modulo the cosmetic
indentation whitespace). -/
def renderJ : JValue → List Char
  | .null => ['n', 'u', 'l', 'l']
  | .jbool true => ['t', 'r', 'u', 'e']
  | .jbool false => ['f', 'a', 'l', 's', 'e']
  | .jnum n => renderNat n
  | .jstr s => renderStr s
  | .jarr a => '[' :: (renderArrItems a ++ [']'])
  | .jobj o => '\x7b' :: (renderObjItems o ++ ['\x7d'])
/-- The comma-separated item list of an array. -/
def renderArrItems : JArr → List Char
  | .anil => []
  | .acons v .anil => renderJ v
  | .acons v (.acons w rest) =>
    renderJ v ++ ',' :: renderArrItems (.acons w rest)
/-- The comma-separated key-value list of an object. -/
def renderObjItems : JObj → List Char
  | .onil => []
  | .ocons k v .onil => renderStr k ++ ':' :: renderJ v
  | .ocons k v (.ocons k2 w rest) =>
    renderStr k ++ ':' :: (renderJ v ++ ',' :: renderObjItems (.ocons k2 w rest))
end

/-- The inverse of the escape map on the character following a backslash. -/
def unescapeChar (e : Char) : Char :=
  if e == 'n' then '\n' else if e == 't' then '\t' else if e == 'r' then '\r' else e

/-- String-body parser: consumes characters up to the closing quote, undoing
escapes; returns the accumulated characters and the remaining input. -/
def parseStrAux : List Char → List Char → Option (List Char × List Char)
  | [], _ => none
  | c :: rest, acc =>
    if c == '\x22' then some (acc.reverse, rest)
    else if c == '\x5c' then
      match rest with
      | [] => none
      | e :: rest2 => parseStrAux rest2 (unescapeChar e :: acc)
    else parseStrAux rest (c :: acc)

/-- Decimal digit test on a character. -/
def isDigitChar (c : Char) : Bool :=
  48 ≤ c.toNat && c.toNat ≤ 57

/-- Number parser: consumes leading digit characters into an accumulator. -/
def parseNatAux : List Char → Nat → Nat × List Char
  | [], acc => (acc, [])
  | c :: rest, acc =>
    if isDigitChar c then parseNatAux rest (acc * 10 + (c.toNat - 48))
    else (acc, c :: rest)

mutual
/-- Parser for one JSON value at the head of the input, with a fuel bound on
the nesting of recursive descent.  All character tests are equality
comparisons, and list matching is on constructors only. -/
def parseJ : Nat → List Char → Option (JValue × List Char)
  | 0, _ => none
  | _ + 1, [] => none
  | fuel + 1, c :: rest =>
    if c == 'n' then
      match rest with
      | c1 :: c2 :: c3 :: r =>
        if c1 == 'u' && c2 == 'l' && c3 == 'l' then some (.null, r) else none
      | _ => none
    else if c == 't' then
      match rest with
      | c1 :: c2 :: c3 :: r =>
        if c1 == 'r' && c2 == 'u' && c3 == 'e' then some (.jbool true, r) else none
      | _ => none
    else if c == 'f' then
      match rest with
      | c1 :: c2 :: c3 :: c4 :: r =>
        if c1 == 'a' && c2 == 'l' && c3 == 's' && c4 == 'e' then
          some (.jbool false, r)
        else none
      | _ => none
    else if c == '\x22' then
      match parseStrAux rest [] with
      | some (cs, r) => some (.jstr ⟨cs⟩, r)
      | none => none
    else if c == '[' then
      match parseArrElems fuel rest with
      | some (a, r) => some (.jarr a, r)
      | none => none
    else if c == '\x7b' then
      match parseObjElems fuel rest with
      | some (o, r) => some (.jobj o, r)
      | none => none
    else if isDigitChar c then
      let r := parseNatAux (c :: rest) 0
      some (.jnum r.1, r.2)
    else none
/-- Parser for the items of an array after the opening bracket, consuming the
closing bracket. -/
def parseArrElems : Nat → List Char → Option (JArr × List Char)
  | 0, _ => none
  | _ + 1, [] => none
  | fuel + 1, c :: rest =>
    if c == ']' then some (.anil, rest)
    else
      match parseJ fuel (c :: rest) with
      | some (v, r) =>
        match r with
        | d :: r2 =>
          if d == ',' then
            match parseArrElems fuel r2 with
            | some (a, r3) => some (.acons v a, r3)
            | none => none
          else if d == ']' then some (.acons v .anil, r2)
          else none
        | [] => none
      | none => none
/-- Parser for the entries of an object after the opening brace, consuming
the closing brace. -/
def parseObjElems : Nat → List Char → Option (JObj × List Char)
  | 0, _ => none
  | _ + 1, [] => none
  | fuel + 1, c :: rest =>
    if c == '\x7d' then some (.onil, rest)
    else if c == '\x22' then
      match parseStrAux rest [] with
      | some (kcs, r) =>
        match r with
        | d :: r2 =>
          if d == ':' then
            match parseJ fuel r2 with
            | some (v, r3) =>
              match r3 with
              | e :: r4 =>
                if e == ',' then
                  match parseObjElems fuel r4 with
                  | some (o, r5) => some (.ocons ⟨kcs⟩ v o, r5)
                  | none => none
                else if e == '\x7d' then some (.ocons ⟨kcs⟩ v .onil, r4)
                else none
              | [] => none
            | none => none
          else none
        | [] => none
      | none => none
    else none
end

/-- Model of `ProjectAnalyzer.save_results`: serialize the assembled result
document to its JSON text. -/
def save_results (doc : JValue) : String :=
  ⟨renderJ doc⟩

/-- Model of `ProjectAnalyzer.load_results`: parse the whole saved text back
into a document (`json.load` fails on trailing garbage, modelled by requiring
the remainder to be empty). -/
def load_results (s : String) : Option JValue :=
  match parseJ (s.data.length + 1) s.data with
  | some (v, []) => some v
  | _ => none

/-- The top-level shape assembled by `DataVisualizer.prepare_all_data` and
serialized by `save_results`: a dictionary with the graph, file tree, grouped
issues and stats. -/
def assembled_result (graph file_tree issues stats : JValue) : JValue :=
  .jobj (.ocons "graph" graph (.ocons "file_tree" file_tree
    (.ocons "issues" issues (.ocons "stats" stats .onil))))

/-! ## Lemmas about the call graph -/

theorem add_node_edges (g : DiGraph) (n : String) :
    (g.add_node n).edges = g.edges := by
  unfold DiGraph.add_node; split <;> rfl

theorem mem_add_node_nodes (g : DiGraph) (n m : String) :
    m ∈ (g.add_node n).nodes ↔ m ∈ g.nodes ∨ m = n := by
  unfold DiGraph.add_node
  split
  · rename_i h
    constructor
    · exact fun hm => Or.inl hm
    · rintro (hm | rfl)
      · exact hm
      · exact h
  · simp

theorem mem_add_edge_edges (g : DiGraph) (u v : String) (e : String × String) :
    e ∈ (g.add_edge u v).edges ↔ e ∈ g.edges ∨ e = (u, v) := by
  simp only [DiGraph.add_edge]
  split
  · rename_i h
    rw [add_node_edges, add_node_edges] at h ⊢
    constructor
    · exact fun hm => Or.inl hm
    · rintro (hm | rfl)
      · exact hm
      · exact h
  · simp [add_node_edges]

theorem mem_add_edge_nodes (g : DiGraph) (u v m : String) :
    m ∈ (g.add_edge u v).nodes ↔ m ∈ g.nodes ∨ m = u ∨ m = v := by
  have hn : m ∈ ((g.add_node u).add_node v).nodes ↔ m ∈ g.nodes ∨ m = u ∨ m = v := by
    rw [mem_add_node_nodes, mem_add_node_nodes]
    tauto
  simp only [DiGraph.add_edge]
  split
  · exact hn
  · exact hn

/-- Edges after folding the call list of one record. -/
theorem edges_fold_calls (calls : List String) (n : String) (g : DiGraph)
    (e : String × String) :
    e ∈ (calls.foldl (fun g called => g.add_edge n called) g).edges ↔
      e ∈ g.edges ∨ (e.1 = n ∧ e.2 ∈ calls) := by
  induction calls generalizing g with
  | nil => simp
  | cons c cs ih =>
    simp only [List.foldl_cons, ih, mem_add_edge_edges, List.mem_cons]
    constructor
    · rintro ((he | rfl) | ⟨h1, h2⟩)
      · exact Or.inl he
      · exact Or.inr ⟨rfl, Or.inl rfl⟩
      · exact Or.inr ⟨h1, Or.inr h2⟩
    · rintro (he | ⟨h1, (h2 | h2)⟩)
      · exact Or.inl (Or.inl he)
      · exact Or.inl (Or.inr (by cases e; simp_all))
      · exact Or.inr ⟨h1, h2⟩

/-- Nodes after folding the call list of one record, when the caller node is
already present. -/
theorem nodes_fold_calls (calls : List String) (n : String) (g : DiGraph)
    (hn : n ∈ g.nodes) (m : String) :
    m ∈ (calls.foldl (fun g called => g.add_edge n called) g).nodes ↔
      m ∈ g.nodes ∨ m ∈ calls := by
  induction calls generalizing g with
  | nil => simp
  | cons c cs ih =>
    have hn2 : n ∈ (g.add_edge n c).nodes := by
      simp [mem_add_edge_nodes, hn]
    simp only [List.foldl_cons, ih _ hn2, mem_add_edge_nodes, List.mem_cons]
    constructor
    · rintro ((hm | rfl | rfl) | hm)
      · exact Or.inl hm
      · exact Or.inl hn
      · exact Or.inr (Or.inl rfl)
      · exact Or.inr (Or.inr hm)
    · rintro (hm | hm | hm)
      · exact Or.inl (Or.inl hm)
      · exact Or.inl (Or.inr (Or.inr hm))
      · exact Or.inr hm

/-- Edge membership in the built call graph: exactly the (caller, callee)
pairs of the records. -/
theorem mem_build_graph_edges (functions : List FuncRecord) (e : String × String) :
    e ∈ (build_graph functions).edges ↔
      ∃ f ∈ functions, e.1 = f.name ∧ e.2 ∈ f.calls := by
  unfold build_graph
  suffices h : ∀ g : DiGraph, e ∈ (functions.foldl
      (fun g func => func.calls.foldl (fun g called => g.add_edge func.name called)
        (g.add_node func.name)) g).edges ↔
      e ∈ g.edges ∨ ∃ f ∈ functions, e.1 = f.name ∧ e.2 ∈ f.calls by
    simpa using h ⟨[], []⟩
  induction functions with
  | nil => simp
  | cons f fs ih =>
    intro g
    simp only [List.foldl_cons, ih, edges_fold_calls, add_node_edges]
    constructor
    · rintro ((he | ⟨h1, h2⟩) | ⟨f2, hf2, h1, h2⟩)
      · exact Or.inl he
      · exact Or.inr ⟨f, by simp, h1, h2⟩
      · exact Or.inr ⟨f2, by simp [hf2], h1, h2⟩
    · rintro (he | ⟨f2, hf2, h1, h2⟩)
      · exact Or.inl (Or.inl he)
      · rcases List.mem_cons.mp hf2 with rfl | hf2
        · exact Or.inl (Or.inr ⟨h1, h2⟩)
        · exact Or.inr ⟨f2, hf2, h1, h2⟩

/-- Node membership in the built call graph: every record name, and every
call-target name (including dangling callees, which `add_edge` inserts). -/
theorem mem_build_graph_nodes (functions : List FuncRecord) (m : String) :
    m ∈ (build_graph functions).nodes ↔
      (∃ f ∈ functions, f.name = m) ∨ ∃ f ∈ functions, m ∈ f.calls := by
  unfold build_graph
  suffices h : ∀ g : DiGraph, m ∈ (functions.foldl
      (fun g func => func.calls.foldl (fun g called => g.add_edge func.name called)
        (g.add_node func.name)) g).nodes ↔
      m ∈ g.nodes ∨ (∃ f ∈ functions, f.name = m) ∨ ∃ f ∈ functions, m ∈ f.calls by
    simpa using h ⟨[], []⟩
  induction functions with
  | nil => simp
  | cons f fs ih =>
    intro g
    have hn : f.name ∈ (g.add_node f.name).nodes := by
      simp [mem_add_node_nodes]
    simp only [List.foldl_cons, ih, nodes_fold_calls _ _ _ hn, mem_add_node_nodes]
    constructor
    · rintro (((hm | rfl) | hm) | h | h)
      · exact Or.inl hm
      · exact Or.inr (Or.inl ⟨f, by simp⟩)
      · exact Or.inr (Or.inr ⟨f, by simp, hm⟩)
      · rcases h with ⟨f2, hf2, h2⟩
        exact Or.inr (Or.inl ⟨f2, by simp [hf2], h2⟩)
      · rcases h with ⟨f2, hf2, h2⟩
        exact Or.inr (Or.inr ⟨f2, by simp [hf2], h2⟩)
    · rintro (hm | ⟨f2, hf2, h2⟩ | ⟨f2, hf2, h2⟩)
      · exact Or.inl (Or.inl (Or.inl hm))
      · rcases List.mem_cons.mp hf2 with rfl | hf2
        · exact Or.inl (Or.inl (Or.inr h2.symm))
        · exact Or.inr (Or.inl ⟨f2, hf2, h2⟩)
      · rcases List.mem_cons.mp hf2 with rfl | hf2
        · exact Or.inl (Or.inr h2)
        · exact Or.inr (Or.inr ⟨f2, hf2, h2⟩)

/-- The in-degree of a name is zero exactly when no record's call list
contains the name. -/
theorem in_degree_eq_zero_iff (functions : List FuncRecord) (name : String) :
    (build_graph functions).in_degree name = 0 ↔
      ∀ f ∈ functions, name ∉ f.calls := by
  unfold DiGraph.in_degree
  rw [List.length_eq_zero, List.filter_eq_nil]
  constructor
  · intro h f hf hc
    exact h (f.name, name) ((mem_build_graph_edges functions _).mpr
      ⟨f, hf, rfl, hc⟩) (by simp)
  · intro h e he hbeq
    rcases (mem_build_graph_edges functions e).mp he with ⟨f, hf, h1, h2⟩
    exact h f hf (by rwa [show e.2 = name by simpa using hbeq] at h2)

/-! ## Helper lemmas about list combinators -/

/-- A filterMap whose function is a guarded some is a filter followed by a
map. -/
theorem filterMap_guard {α β : Type} (p : α → Bool) (h : α → β) (l : List α) :
    l.filterMap (fun x => if p x then some (h x) else none) =
      (l.filter p).map h := by
  induction l with
  | nil => rfl
  | cons a t ih => by_cases hp : p a <;> simp [hp, ih]

/-! ## Claim C1: dead-code detection -/

/-- The three exemptions of `find_dead_code`, as one Boolean predicate. -/
def dead_code_exempt (f : FuncRecord) : Bool :=
  decide (f.name ∈ ENTRY_POINTS) ||
    (strStartsWith f.name "__" && strEndsWith f.name "__") || f.in_main_block

/-- A record qualifies for a dead-code warning when it is not exempt and its
name has in-degree zero in the graph. -/
def dead_qualifies (g : DiGraph) (f : FuncRecord) : Bool :=
  !dead_code_exempt f && (g.in_degree f.name == 0)

theorem find_dead_code_eq (functions : List FuncRecord) (g : DiGraph) :
    find_dead_code functions g =
      (functions.filter (dead_qualifies g)).map dead_code_issue := by
  unfold find_dead_code
  have h : ∀ f : FuncRecord,
      (if f.name ∈ ENTRY_POINTS then none
       else if strStartsWith f.name "__" && strEndsWith f.name "__" then none
       else if f.in_main_block then none
       else if g.in_degree f.name == 0 then some (dead_code_issue f)
       else none) =
      (if dead_qualifies g f then some (dead_code_issue f) else none) := by
    intro f
    by_cases h1 : f.name ∈ ENTRY_POINTS
    · simp [h1, dead_qualifies, dead_code_exempt]
    · by_cases h2 : strStartsWith f.name "__" && strEndsWith f.name "__"
      · simp [h1, h2, dead_qualifies, dead_code_exempt]
      · by_cases h3 : f.in_main_block
        · simp [h1, h2, h3, dead_qualifies, dead_code_exempt]
        · by_cases h4 : g.in_degree f.name == 0 <;>
            simp [h1, h2, h3, h4, dead_qualifies, dead_code_exempt]
  simp only [h]
  exact filterMap_guard _ _ _

/-- C1.  Dead-code detection emits exactly one `dead_code` warning, at the
record's declaration line, for each non-exempt record whose name has
in-degree zero in the call graph built from the records, and emits nothing
for exempt records or names with a call site; in-degree zero is equivalent to
the name appearing in no record's call list anywhere in the project. -/
theorem C1_dead_code (functions : List FuncRecord) :
    find_dead_code functions (build_graph functions) =
      (functions.filter (dead_qualifies (build_graph functions))).map dead_code_issue
    ∧ ∀ name, ((build_graph functions).in_degree name = 0 ↔
        ∀ f ∈ functions, name ∉ f.calls) := by
  exact ⟨find_dead_code_eq functions (build_graph functions),
    fun name => in_degree_eq_zero_iff functions name⟩

/-! ## Claim C3: the node set of the built graph -/

/-- A one-record project whose single function calls an undeclared name. -/
def c3Func : FuncRecord :=
  { name := "a", file := "m.py", line_start := 1, line_end := 2, params := [],
    return_type := none, code := "def a():\n    b()", calls := ["b"],
    is_async := false, decorators := [] }

/-- C3 counterexample.  The dangling callee name does become a node of the
built graph (networkx `add_edge` inserts both endpoints), so the node set is
strictly larger than the set of record names. -/
theorem C3_counterexample :
    "b" ∈ (build_graph [c3Func]).nodes ∧ "b" ∉ [c3Func].map (fun f => f.name) := by
  constructor
  · decide
  · decide

/-- C3 amended.  The node set of the built graph is the record names together
with every call-target name (dangling callees included); the edge set is
exactly the (caller name, callee name) pairs of every call site, dangling
callees tolerated. -/
theorem C3_amended (functions : List FuncRecord) :
    (∀ m, m ∈ (build_graph functions).nodes ↔
      ((∃ f ∈ functions, f.name = m) ∨ ∃ f ∈ functions, m ∈ f.calls))
    ∧ ∀ e, e ∈ (build_graph functions).edges ↔
        ∃ f ∈ functions, e.1 = f.name ∧ e.2 ∈ f.calls := by
  exact ⟨fun m => mem_build_graph_nodes functions m,
    fun e => mem_build_graph_edges functions e⟩

/-! ## Claim C10: direct recursion protects from dead-code warnings -/

/-- C10.  A record whose own call list contains its own name gives its graph
node in-degree at least one, so dead-code detection emits no `dead_code`
issue naming that function, whatever the rest of the project. -/
theorem C10_self_recursion (functions : List FuncRecord) (f : FuncRecord)
    (hf : f ∈ functions) (hself : f.name ∈ f.calls) :
    (find_dead_code functions (build_graph functions)).countP
      (fun i => i.function == some f.name) = 0 := by
  rw [find_dead_code_eq]
  rw [List.countP_eq_zero]
  intro i hi
  rcases List.mem_map.mp hi with ⟨g, hg, rfl⟩
  rcases List.mem_filter.mp hg with ⟨hgmem, hq⟩
  simp only [dead_qualifies, Bool.and_eq_true, beq_iff_eq] at hq
  have hdeg : (build_graph functions).in_degree g.name = 0 := hq.2
  rw [in_degree_eq_zero_iff] at hdeg
  simp only [dead_code_issue]
  intro hbeq
  have : g.name = f.name := by simpa using hbeq
  exact hdeg f hf (this ▸ hself)

/-- C10 witness: a concrete directly-recursive function, alone in the
project, receives no dead-code issue. -/
def c10Func : FuncRecord :=
  { name := "loop", file := "m.py", line_start := 1, line_end := 2, params := [],
    return_type := none, code := "def loop():\n    loop()", calls := ["loop"],
    is_async := false, decorators := [] }

theorem C10_self_recursion_witness :
    c10Func ∈ [c10Func] ∧ c10Func.name ∈ c10Func.calls ∧
    (find_dead_code [c10Func] (build_graph [c10Func])).countP
      (fun i => i.function == some c10Func.name) = 0 :=
  ⟨by decide, by decide, C10_self_recursion [c10Func] c10Func (by decide) (by decide)⟩

/-! ## Claim C2: broken-call detection -/

/-- The four exemptions of `find_broken_calls`, as one Boolean predicate over
a call-site name. -/
def call_exempt (functions : List FuncRecord) (imports : List ImportRecord)
    (called : String) : Bool :=
  decide (called ∈ BUILTINS) || strStartsWith called "_" ||
    decide (called ∈ functions.map (fun f => f.name)) ||
    decide (called ∈ imports.map (fun imp => imp.module) ++
      imports.flatMap (fun imp => imp.names))

theorem find_broken_calls_eq (functions : List FuncRecord)
    (imports : List ImportRecord) :
    find_broken_calls functions imports =
      functions.flatMap (fun func =>
        (func.calls.filter (fun c => !call_exempt functions imports c)).map
          (broken_call_issue func)) := by
  unfold find_broken_calls
  have h : ∀ (func : FuncRecord) (called : String),
      (if called ∈ BUILTINS then none
       else if strStartsWith called "_" then none
       else if called ∈ functions.map (fun f => f.name) then none
       else if called ∈ imports.map (fun imp => imp.module) ++
           imports.flatMap (fun imp => imp.names) then none
       else some (broken_call_issue func called)) =
      (if !call_exempt functions imports called then
        some (broken_call_issue func called) else none) := by
    intro func called
    by_cases h1 : called ∈ BUILTINS
    · simp [h1, call_exempt]
    · by_cases h2 : strStartsWith called "_"
      · simp [h1, h2, call_exempt]
      · by_cases h3 : called ∈ functions.map (fun f => f.name)
        · simp [h1, h2, h3, call_exempt]
        · by_cases h4 : called ∈ imports.map (fun imp => imp.module) ++
            imports.flatMap (fun imp => imp.names)
          · simp [h1, h2, h3, h4, call_exempt]
          · simp [h1, h2, h3, h4, call_exempt]
  simp only [h, filterMap_guard]

/-- C2.  Broken-call detection emits exactly one `broken_call` error, at the
calling record's declaration line, per call-site occurrence that fails all
four exemptions, and none for exempt occurrences; the exemption predicate
holds exactly for allow-listed names, privacy-prefixed names, names of some
declared record, and module or imported names of some import record. -/
theorem C2_broken_calls (functions : List FuncRecord) (imports : List ImportRecord) :
    (find_broken_calls functions imports =
      functions.flatMap (fun func =>
        (func.calls.filter (fun c => !call_exempt functions imports c)).map
          (broken_call_issue func)))
    ∧ (∀ c, call_exempt functions imports c = true ↔
        (c ∈ BUILTINS ∨ strStartsWith c "_" = true ∨ (∃ f ∈ functions, f.name = c)
          ∨ ∃ imp ∈ imports, imp.module = c ∨ c ∈ imp.names))
    ∧ (find_broken_calls functions imports).length =
        (functions.map (fun func =>
          func.calls.countP (fun c => !call_exempt functions imports c))).sum := by
  refine ⟨find_broken_calls_eq functions imports, ?_, ?_⟩
  · intro c
    simp only [call_exempt, Bool.or_eq_true, decide_eq_true_eq, List.mem_append,
      List.mem_map, List.mem_flatMap]
    constructor
    · rintro (((h | h) | ⟨f, hf, hn⟩) | (⟨imp, him, hm⟩ | ⟨imp, him, hm⟩))
      · exact Or.inl h
      · exact Or.inr (Or.inl h)
      · exact Or.inr (Or.inr (Or.inl ⟨f, hf, hn⟩))
      · exact Or.inr (Or.inr (Or.inr ⟨imp, him, Or.inl hm⟩))
      · exact Or.inr (Or.inr (Or.inr ⟨imp, him, Or.inr hm⟩))
    · rintro (h | h | ⟨f, hf, hn⟩ | ⟨imp, him, hm | hm⟩)
      · exact Or.inl (Or.inl (Or.inl h))
      · exact Or.inl (Or.inl (Or.inr h))
      · exact Or.inl (Or.inr ⟨f, hf, hn⟩)
      · exact Or.inr (Or.inl ⟨imp, him, hm⟩)
      · exact Or.inr (Or.inr ⟨imp, him, hm⟩)
  · rw [find_broken_calls_eq, List.length_flatMap]
    congr 1
    refine List.map_congr_left ?_
    intro func _
    simp [Function.comp, List.countP_eq_length_filter]

/-! ## Claim C6: missing-return detection -/

theorem isPrefixOf_true_iff (p l : List Char) :
    p.isPrefixOf l = true ↔ ∃ t, l = p ++ t := by
  induction p generalizing l with
  | nil => simp [List.isPrefixOf]
  | cons c cs ih =>
    cases l with
    | nil => simp [List.isPrefixOf]
    | cons d ds =>
      simp only [List.isPrefixOf, Bool.and_eq_true, beq_iff_eq, ih,
        List.cons_append, List.cons.injEq]
      constructor
      · rintro ⟨rfl, t, rfl⟩
        exact ⟨t, rfl, rfl⟩
      · rintro ⟨t, rfl, rfl⟩
        exact ⟨rfl, t, rfl⟩

/-- Substring containment holds exactly when the pattern occurs contiguously,
at any position. -/
theorem listHasSub_iff (pat l : List Char) :
    listHasSub pat l = true ↔ ∃ pre post, l = pre ++ pat ++ post := by
  induction l with
  | nil =>
    simp only [listHasSub, beq_iff_eq]
    constructor
    · rintro rfl
      exact ⟨[], [], rfl⟩
    · rintro ⟨pre, post, h⟩
      rcases List.append_eq_nil.mp (List.append_eq_nil.mp h.symm).1 with ⟨-, h2⟩
      exact h2
  | cons c cs ih =>
    simp only [listHasSub, Bool.or_eq_true, isPrefixOf_true_iff, ih]
    constructor
    · rintro (⟨t, ht⟩ | ⟨pre, post, h⟩)
      · exact ⟨[], t, by simpa using ht⟩
      · exact ⟨c :: pre, post, by simp [h]⟩
    · rintro ⟨pre, post, h⟩
      cases pre with
      | nil => exact Or.inl ⟨post, by simpa using h⟩
      | cons p ps =>
        right
        rw [List.cons_append, List.cons_append, List.cons.injEq] at h
        exact ⟨ps, post, h.2⟩

/-- Substring containment on strings, characterized by decomposition of the
character data. -/
theorem strHasSub_iff (s pat : String) :
    strHasSub s pat = true ↔ ∃ pre post, s.data = pre ++ pat.data ++ post :=
  listHasSub_iff pat.data s.data

/-- A record needs the missing-return error: truthy annotation, not the
literal None, no return-keyword substring in the stored code. -/
def needs_missing_return (f : FuncRecord) : Bool :=
  pyTruthyStr f.return_type && f.return_type != some "None" &&
    !(strHasSub f.code "return")

theorem find_missing_returns_eq (functions : List FuncRecord) :
    find_missing_returns functions =
      (functions.filter needs_missing_return).map missing_return_issue := by
  unfold find_missing_returns
  have h : ∀ f : FuncRecord,
      (if pyTruthyStr f.return_type && f.return_type != some "None" then
        if !(strHasSub f.code "return") then some (missing_return_issue f) else none
       else none) =
      (if needs_missing_return f then some (missing_return_issue f) else none) := by
    intro f
    by_cases h1 : pyTruthyStr f.return_type && f.return_type != some "None"
    · by_cases h2 : strHasSub f.code "return" <;>
        simp [h1, h2, needs_missing_return]
    · simp only [Bool.not_eq_true] at h1
      simp [h1, needs_missing_return]
  simp only [h, filterMap_guard]

/-- C6.  Missing-return detection emits exactly one `missing_return` error
per record whose declared return type is present, truthy and not the literal
None, if and only if the literal return-keyword substring occurs nowhere in
the record's verbatim stored code (any occurrence, even inside a comment,
suppresses it). -/
theorem C6_missing_return (functions : List FuncRecord) :
    (find_missing_returns functions =
      (functions.filter needs_missing_return).map missing_return_issue)
    ∧ (∀ f : FuncRecord, needs_missing_return f = true ↔
        ((∃ t, f.return_type = some t ∧ t ≠ "" ∧ t ≠ "None") ∧
          ¬ ∃ pre post, f.code.data = pre ++ ("return" : String).data ++ post)) := by
  refine ⟨find_missing_returns_eq functions, ?_⟩
  intro f
  simp only [needs_missing_return, Bool.and_eq_true, Bool.not_eq_true']
  constructor
  · rintro ⟨⟨hT, hN⟩, hS⟩
    cases hrt : f.return_type with
    | none => rw [hrt] at hT; exact absurd hT (by simp [pyTruthyStr])
    | some t =>
      refine ⟨⟨t, rfl, ?_, ?_⟩, ?_⟩
      · rw [hrt] at hT
        simpa [pyTruthyStr] using hT
      · rw [hrt] at hN
        simpa using hN
      · intro hex
        rw [← strHasSub_iff] at hex
        rw [hex] at hS
        cases hS
  · rintro ⟨⟨t, hrt, hne, hnn⟩, hnsub⟩
    refine ⟨⟨?_, ?_⟩, ?_⟩
    · simp [hrt, pyTruthyStr, hne]
    · simp [hrt, hnn]
    · rw [← Bool.not_eq_true, strHasSub_iff]
      exact hnsub

/-! ## Claim C7: unused-import detection -/

theorem mem_import_files (imports : List ImportRecord) (file : String) :
    file ∈ import_files imports ↔ ∃ imp ∈ imports, imp.file = file := by
  unfold import_files
  suffices h : ∀ acc : List String, file ∈ (imports.foldl
      (fun acc imp => if imp.file ∈ acc then acc else acc ++ [imp.file]) acc) ↔
      file ∈ acc ∨ ∃ imp ∈ imports, imp.file = file by
    simpa using h []
  induction imports with
  | nil => simp
  | cons imp imps ih =>
    intro acc
    simp only [List.foldl_cons, ih]
    by_cases hmem : imp.file ∈ acc
    · simp only [if_pos hmem]
      constructor
      · rintro (h | ⟨i2, hi2, h2⟩)
        · exact Or.inl h
        · exact Or.inr ⟨i2, List.mem_cons_of_mem _ hi2, h2⟩
      · rintro (h | ⟨i2, hi2, h2⟩)
        · exact Or.inl h
        · rcases List.mem_cons.mp hi2 with rfl | hi2
          · exact Or.inl (h2 ▸ hmem)
          · exact Or.inr ⟨i2, hi2, h2⟩
    · simp only [if_neg hmem, List.mem_append, List.mem_singleton]
      constructor
      · rintro ((h | h) | ⟨i2, hi2, h2⟩)
        · exact Or.inl h
        · exact Or.inr ⟨imp, List.mem_cons_self _ _, h.symm⟩
        · exact Or.inr ⟨i2, List.mem_cons_of_mem _ hi2, h2⟩
      · rintro (h | ⟨i2, hi2, h2⟩)
        · exact Or.inl (Or.inl h)
        · rcases List.mem_cons.mp hi2 with rfl | hi2
          · exact Or.inl (Or.inr h2.symm)
          · exact Or.inr ⟨i2, hi2, h2⟩

theorem mem_import_names_for (imports : List ImportRecord) (file name : String) :
    name ∈ import_names_for imports file ↔
      ∃ imp ∈ imports, imp.file = file ∧ name ∈ imp.names := by
  simp only [import_names_for, List.mem_flatMap, List.mem_filter, beq_iff_eq]
  tauto

theorem mem_used_names_in (functions : List FuncRecord) (file name : String) :
    name ∈ used_names_in functions file ↔
      ∃ f ∈ functions, f.file = file ∧ name ∈ f.calls := by
  simp only [used_names_in, List.mem_flatMap, List.mem_filter, beq_iff_eq]
  tauto

/-- The unused-import issue determines its file and imported name. -/
theorem unused_import_issue_inj (file1 name1 file2 name2 : String)
    (h : unused_import_issue file1 name1 = unused_import_issue file2 name2) :
    file1 = file2 ∧ name1 = name2 := by
  have hf : file1 = file2 := congrArg Issue.file h
  have hm := congrArg Issue.message h
  simp only [unused_import_issue] at hm
  have hd := congrArg String.data hm
  simp only [String.data_append] at hd
  have h1 := List.append_cancel_right hd
  have h2 := List.append_cancel_left h1
  exact ⟨hf, String.ext h2⟩

/-- C7.  For a name imported into a file, unused-import detection emits the
`unused_import` info issue at line 0 for that file when the name is not a
call target of any record of the file, and emits no such issue when it is a
call target of some record of the file. -/
theorem C7_unused_imports (functions : List FuncRecord) (imports : List ImportRecord)
    (file name : String)
    (himp : ∃ imp ∈ imports, imp.file = file ∧ name ∈ imp.names) :
    ((∀ f ∈ functions, f.file = file → name ∉ f.calls) →
      unused_import_issue file name ∈ find_unused_imports functions imports)
    ∧ ((∃ f ∈ functions, f.file = file ∧ name ∈ f.calls) →
      unused_import_issue file name ∉ find_unused_imports functions imports) := by
  constructor
  · intro hunused
    unfold find_unused_imports
    refine List.mem_flatMap.mpr ⟨file, ?_, ?_⟩
    · exact (mem_import_files imports file).mpr
        (by rcases himp with ⟨imp, h1, h2, -⟩; exact ⟨imp, h1, h2⟩)
    · refine List.mem_filterMap.mpr ⟨name, ?_, ?_⟩
      · exact (mem_import_names_for imports file name).mpr himp
      · have hnot : name ∉ used_names_in functions file := by
          rw [mem_used_names_in]
          rintro ⟨f, hf, hfile, hcall⟩
          exact hunused f hf hfile hcall
        simp [hnot]
  · rintro ⟨f, hf, hfile, hcall⟩ hmem
    unfold find_unused_imports at hmem
    rcases List.mem_flatMap.mp hmem with ⟨file2, -, hin⟩
    rcases List.mem_filterMap.mp hin with ⟨name2, -, hguard⟩
    by_cases hused : name2 ∈ used_names_in functions file2
    · simp [hused] at hguard
    · simp only [hused, if_neg, if_false] at hguard
      have heq := Option.some.inj (by simpa [hused] using hguard)
      rcases unused_import_issue_inj file2 name2 file name heq with ⟨rfl, rfl⟩
      exact hused ((mem_used_names_in functions file2 name2).mpr ⟨f, hf, hfile, hcall⟩)

/-- A two-import, one-function example for the C7 witness. -/
def c7Func : FuncRecord :=
  { name := "run", file := "app.py", line_start := 3, line_end := 4, params := [],
    return_type := none, code := "def run():\n    json()", calls := ["json"],
    is_async := false, decorators := [] }

def c7Imports : List ImportRecord :=
  [ { file := "app.py", line := 1, module := "os", names := ["os"], al := none },
    { file := "app.py", line := 2, module := "json", names := ["json"], al := none } ]

theorem C7_unused_imports_witness :
    unused_import_issue "app.py" "os" ∈ find_unused_imports [c7Func] c7Imports ∧
    unused_import_issue "app.py" "json" ∉ find_unused_imports [c7Func] c7Imports :=
  ⟨(C7_unused_imports [c7Func] c7Imports "app.py" "os" (by decide)).1 (by decide),
   (C7_unused_imports [c7Func] c7Imports "app.py" "json" (by decide)).2 (by decide)⟩

/-! ## Claim C8: per-file failures never abort the scan -/

/-- A skipped file leaves the parsed data unchanged and records a
diagnostic. -/
theorem parse_file_skipped (max_file_size : Nat) (f : SrcFile)
    (h : file_skipped max_file_size f = true) (pd : ParsedData) :
    (parse_file max_file_size f pd).1 = pd ∧
      (parse_file max_file_size f pd).2.isSome = true := by
  unfold file_skipped at h
  unfold parse_file
  cases hr : f.read with
  | decodeError => simp
  | text content =>
    rw [hr] at h
    dsimp only at h ⊢
    by_cases hsz : utf8Len content > max_file_size
    · simp [hsz]
    · have hde : decide (utf8Len content > max_file_size) = false := by simp [hsz]
      rw [hde, Bool.false_or, Bool.and_eq_true] at h
      rcases h with ⟨hext, hp⟩
      rw [if_neg hsz]
      cases hpp : f.parsed with
      | syntaxError => simp [hext]
      | tree t => simp [hpp] at hp

/-- C8.  A skipped file (oversized, undecodable, or unparsable Python) leaves
every record already extracted unchanged, records a diagnostic, and the scan
of all remaining files proceeds exactly as if the file were absent. -/
theorem C8_file_failure_isolated (max_file_size : Nat) (f : SrcFile)
    (h : file_skipped max_file_size f = true) :
    (∀ pd : ParsedData, (parse_file max_file_size f pd).1 = pd ∧
      (parse_file max_file_size f pd).2.isSome = true)
    ∧ ∀ (pre post : List SrcFile) (pd0 : ParsedData),
        (parse_files max_file_size (pre ++ f :: post) pd0).1 =
          (parse_files max_file_size (pre ++ post) pd0).1 := by
  constructor
  · exact fun pd => parse_file_skipped max_file_size f h pd
  · intro pre post pd0
    induction pre generalizing pd0 with
    | nil =>
      simp only [List.nil_append, parse_files]
      rw [(parse_file_skipped max_file_size f h pd0).1]
    | cons a pre ih =>
      simp only [List.cons_append, parse_files]
      exact ih _

/-- A concrete syntactically-broken Python file and two well-formed files for
the C8 witness. -/
def c8BadFile : SrcFile :=
  { name := "bad.py", ext := ".py", read := .text "def broken(:", parsed := .syntaxError }

def c8GoodTree : PyNode :=
  .other [.functionDef "ok" 1 2 [] none [.other []] []]

def c8GoodFile : SrcFile :=
  { name := "good.py", ext := ".py", read := .text "def ok():\n    pass",
    parsed := .tree c8GoodTree }

def c8GoodFile2 : SrcFile :=
  { name := "good2.py", ext := ".py", read := .text "def ok():\n    pass",
    parsed := .tree c8GoodTree }

theorem C8_file_failure_isolated_witness :
    ((parse_file 1024 c8BadFile emptyParsed).1 = emptyParsed ∧
      (parse_file 1024 c8BadFile emptyParsed).2.isSome = true) ∧
    (parse_files 1024 [c8GoodFile, c8BadFile, c8GoodFile2] emptyParsed).1 =
      (parse_files 1024 [c8GoodFile, c8GoodFile2] emptyParsed).1 :=
  ⟨(C8_file_failure_isolated 1024 c8BadFile (by decide)).1 emptyParsed,
   (C8_file_failure_isolated 1024 c8BadFile (by decide)).2 [c8GoodFile] [c8GoodFile2]
     emptyParsed⟩

/-! ## Claim C4: async function declarations are never extracted -/

/-- A module containing a single async function declaration, and its sync
twin. -/
def c4AsyncContent : String := "async def g():\n    pass"

def c4AsyncTree : PyNode :=
  .other [.asyncFunctionDef "g" 1 2 [] none [.other []] []]

def c4SyncContent : String := "def g():\n    pass"

def c4SyncTree : PyNode :=
  .other [.functionDef "g" 1 2 [] none [.other []] []]

/-- C4.  The extractor walk matches only the synchronous function-definition
node class, so an async declaration produces no FunctionRecord at all, while
its sync twin produces one whose is-async flag is false; the flag computed
from the node class is therefore constantly false on every extracted
record. -/
theorem C4_async_never_extracted :
    (extract_python c4AsyncTree "m.py" c4AsyncContent emptyParsed).functions = []
    ∧ (extract_python c4SyncTree "m.py" c4SyncContent emptyParsed).functions.map
        (fun f => (f.name, f.is_async)) = [("g", false)] := by
  constructor
  · decide
  · decide

/-! ## Claim C5: the stored code slice includes the header line -/

/-- The end-to-end example of the claim: one function with return annotation
int and body pass. -/
def c5Content : String := "def f() -> int:\n    pass"

def c5Tree : PyNode :=
  .other [.functionDef "f" 1 2 [] (some "int") [.other []] []]

/-- C5.  On the int-annotated pass-bodied function, the pipeline emits the
missing-return error but no placeholder warning: the stored code slice starts
at the declaration line, so the stripped text is the whole definition, never
the bare no-op keyword. -/
theorem C5_pass_placeholder_not_emitted :
    ((analyze (extract_python c5Tree "m.py" c5Content emptyParsed)).countP
        (fun i => i.type == "placeholder") = 0)
    ∧ ((analyze (extract_python c5Tree "m.py" c5Content emptyParsed)).countP
        (fun i => i.type == "missing_return") = 1)
    ∧ (extract_python c5Tree "m.py" c5Content emptyParsed).functions.map
        (fun f => f.code) = ["def f() -> int:\n    pass"] := by
  refine ⟨?_, ?_, ?_⟩
  · decide
  · decide
  · decide

/-! ## Round-trip lemmas for the persisted JSON document -/

/-- The remaining input after a rendered value never starts with a digit in
any position where the parser looks for one. -/
def noDigitStart : List Char → Prop
  | [] => True
  | c :: _ => isDigitChar c = false

/-- One parser step for each shape of escaped output. -/
theorem parseStrAux_quote (rest acc : List Char) :
    parseStrAux ('\x22' :: rest) acc = some (acc.reverse, rest) := by
  conv_lhs => rw [parseStrAux.eq_def]
  simp

theorem parseStrAux_esc (e : Char) (l acc : List Char) :
    parseStrAux ('\x5c' :: e :: l) acc = parseStrAux l (unescapeChar e :: acc) := by
  conv_lhs => rw [parseStrAux.eq_def]
  have h1 : ¬ (('\x5c' : Char) = '\x22') := by decide
  simp [h1]

theorem parseStrAux_other (c : Char) (h1 : (c == '\x22') = false)
    (h2 : (c == '\x5c') = false) (l acc : List Char) :
    parseStrAux (c :: l) acc = parseStrAux l (c :: acc) := by
  conv_lhs => rw [parseStrAux.eq_def]
  have g1 : ¬ (c = '\x22') := by simpa using h1
  have g2 : ¬ (c = '\x5c') := by simpa using h2
  simp [g1, g2]

/-- Escaped string bodies parse back to the original characters. -/
theorem parseStrAux_escape (cs : List Char) : ∀ (acc rest : List Char),
    parseStrAux (cs.flatMap escapeChar ++ '\x22' :: rest) acc =
      some (acc.reverse ++ cs, rest) := by
  induction cs with
  | nil =>
    intro acc rest
    simp only [List.flatMap_nil, List.nil_append]
    rw [parseStrAux_quote]
    simp
  | cons c cs ih =>
    intro acc rest
    by_cases h1 : c = '\x22'
    · subst h1
      rw [List.flatMap_cons, show escapeChar '\x22' = ['\x5c', '\x22'] from rfl]
      simp only [List.cons_append, List.nil_append, List.append_assoc]
      rw [parseStrAux_esc, show unescapeChar '\x22' = '\x22' from rfl, ih]
      simp
    · by_cases h2 : c = '\x5c'
      · subst h2
        rw [List.flatMap_cons, show escapeChar '\x5c' = ['\x5c', '\x5c'] from rfl]
        simp only [List.cons_append, List.nil_append, List.append_assoc]
        rw [parseStrAux_esc, show unescapeChar '\x5c' = '\x5c' from rfl, ih]
        simp
      · by_cases h3 : c = '\n'
        · subst h3
          rw [List.flatMap_cons, show escapeChar '\n' = ['\x5c', 'n'] from rfl]
          simp only [List.cons_append, List.nil_append, List.append_assoc]
          rw [parseStrAux_esc, show unescapeChar 'n' = '\n' from rfl, ih]
          simp
        · by_cases h4 : c = '\t'
          · subst h4
            rw [List.flatMap_cons, show escapeChar '\t' = ['\x5c', 't'] from rfl]
            simp only [List.cons_append, List.nil_append, List.append_assoc]
            rw [parseStrAux_esc, show unescapeChar 't' = '\t' from rfl, ih]
            simp
          · by_cases h5 : c = '\r'
            · subst h5
              rw [List.flatMap_cons, show escapeChar '\r' = ['\x5c', 'r'] from rfl]
              simp only [List.cons_append, List.nil_append, List.append_assoc]
              rw [parseStrAux_esc, show unescapeChar 'r' = '\r' from rfl, ih]
              simp
            · have hb1 : (c == '\x22') = false := by simp [h1]
              have hb2 : (c == '\x5c') = false := by simp [h2]
              rw [List.flatMap_cons,
                show escapeChar c = [c] from by simp [escapeChar, h1, h2, h3, h4, h5]]
              simp only [List.cons_append, List.nil_append, List.singleton_append]
              rw [parseStrAux_other c hb1 hb2, ih]
              simp

/-- The digit characters produced by `digitChar` are digits and are distinct
from every delimiter and keyword head the parser dispatches on. -/
theorem digitChar_spec (d : Nat) :
    isDigitChar (digitChar d) = true ∧
    (digitChar d == 'n') = false ∧ (digitChar d == 't') = false ∧
    (digitChar d == 'f') = false ∧ (digitChar d == '\x22') = false ∧
    (digitChar d == '[') = false ∧ (digitChar d == '\x7b') = false ∧
    (digitChar d == ']') = false ∧ (digitChar d == '\x7d') = false ∧
    (digitChar d == ',') = false := by
  unfold digitChar
  split <;> decide

theorem digitChar_toNat (d : Nat) (h : d < 10) : (digitChar d).toNat - 48 = d := by
  interval_cases d <;> decide

/-- The number parser folds digit characters into the accumulator and stops
at the first non-digit. -/
theorem parseNatAux_digits (ds : List Nat) : ∀ (acc : Nat) (rest : List Char),
    (∀ d ∈ ds, d < 10) → noDigitStart rest →
    parseNatAux (ds.map digitChar ++ rest) acc =
      (ds.foldl (fun a d => a * 10 + d) acc, rest) := by
  induction ds with
  | nil =>
    intro acc rest _ hrest
    cases rest with
    | nil => simp [parseNatAux]
    | cons c t =>
      have hc : isDigitChar c = false := hrest
      simp [parseNatAux, hc]
  | cons d ds ih =>
    intro acc rest hlt hrest
    have hd := (digitChar_spec d).1
    have htn := digitChar_toNat d (hlt d (by simp))
    simp only [List.map_cons, List.cons_append]
    rw [show parseNatAux (digitChar d :: (List.map digitChar ds ++ rest)) acc =
        parseNatAux (List.map digitChar ds ++ rest)
          (acc * 10 + ((digitChar d).toNat - 48)) from by simp [parseNatAux, hd]]
    rw [htn, ih (acc * 10 + d) rest (fun x hx => hlt x (by simp [hx])) hrest]
    simp

/-- Folding the digit-accumulation step over the reversed digit list computes
the positional value. -/
theorem foldl_digits (l : List Nat) (a : Nat) :
    List.foldl (fun acc d => acc * 10 + d) a l.reverse =
      a * 10 ^ l.length + Nat.ofDigits 10 l := by
  induction l generalizing a with
  | nil => simp [Nat.ofDigits]
  | cons d t ih =>
    simp only [List.reverse_cons, List.foldl_append, List.foldl_cons, List.foldl_nil,
      ih, Nat.ofDigits_cons, List.length_cons, pow_succ]
    ring

/-- The decimal rendering of a natural number parses back to it. -/
theorem renderNat_parse (n : Nat) (rest : List Char) (hrest : noDigitStart rest) :
    parseNatAux (renderNat n ++ rest) 0 = (n, rest) := by
  unfold renderNat
  by_cases h : n = 0
  · subst h
    have h0 : ([('0' : Char)]) = [0].map digitChar := rfl
    rw [if_pos (by simp), h0,
      parseNatAux_digits [0] 0 rest (by simp) hrest]
    simp
  · rw [if_neg (by simpa using h)]
    have hlt : ∀ d ∈ (Nat.digits 10 n).reverse, d < 10 := by
      intro d hd
      exact Nat.digits_lt_base (by norm_num) (List.mem_reverse.mp hd)
    rw [parseNatAux_digits _ 0 rest hlt hrest, foldl_digits]
    simp [Nat.ofDigits_digits]

/-- The rendering of a number starts with a digit character. -/
theorem renderNat_head (n : Nat) : ∃ d t, renderNat n = digitChar d :: t := by
  unfold renderNat
  by_cases h : n = 0
  · subst h
    exact ⟨0, [], rfl⟩
  · rw [if_neg (by simpa using h)]
    have hne : Nat.digits 10 n ≠ [] := Nat.digits_ne_nil_iff_ne_zero.mpr h
    cases hrev : (Nat.digits 10 n).reverse with
    | nil => exact absurd (by simpa using congrArg List.reverse hrev) hne
    | cons d t => exact ⟨d, t.map digitChar, by simp [hrev]⟩

mutual
/-- The recursive-descent depth the parser needs for a value. -/
def fuelV : JValue → Nat
  | .null => 1
  | .jbool _ => 1
  | .jnum _ => 1
  | .jstr _ => 1
  | .jarr a => fuelA a + 1
  | .jobj o => fuelO o + 1
def fuelA : JArr → Nat
  | .anil => 1
  | .acons v rest => max (fuelV v) (fuelA rest) + 1
def fuelO : JObj → Nat
  | .onil => 1
  | .ocons _ v rest => max (fuelV v) (fuelO rest) + 1
end

theorem string_mk_data (s : String) : (⟨s.data⟩ : String) = s := by
  cases s; rfl

/-- Unfolding equations of the renderer, one per constructor. -/
theorem renderJ_null : renderJ .null = ['n', 'u', 'l', 'l'] := by
  rw [renderJ.eq_def]

theorem renderJ_true : renderJ (.jbool true) = ['t', 'r', 'u', 'e'] := by
  rw [renderJ.eq_def]

theorem renderJ_false : renderJ (.jbool false) = ['f', 'a', 'l', 's', 'e'] := by
  rw [renderJ.eq_def]

theorem renderJ_num (n : Nat) : renderJ (.jnum n) = renderNat n := by
  rw [renderJ.eq_def]

theorem renderJ_str (s : String) : renderJ (.jstr s) = renderStr s := by
  rw [renderJ.eq_def]

theorem renderJ_arr (a : JArr) :
    renderJ (.jarr a) = '[' :: (renderArrItems a ++ [']']) := by
  rw [renderJ.eq_def]

theorem renderJ_obj (o : JObj) :
    renderJ (.jobj o) = '\x7b' :: (renderObjItems o ++ ['\x7d']) := by
  rw [renderJ.eq_def]

theorem renderArrItems_nil : renderArrItems .anil = [] := by
  rw [renderArrItems.eq_def]

theorem renderArrItems_one (v : JValue) :
    renderArrItems (.acons v .anil) = renderJ v := by
  rw [renderArrItems.eq_def]

theorem renderArrItems_cons (v w : JValue) (rest : JArr) :
    renderArrItems (.acons v (.acons w rest)) =
      renderJ v ++ ',' :: renderArrItems (.acons w rest) := by
  rw [renderArrItems.eq_def]

theorem renderObjItems_nil : renderObjItems .onil = [] := by
  rw [renderObjItems.eq_def]

theorem renderObjItems_one (k : String) (v : JValue) :
    renderObjItems (.ocons k v .onil) = renderStr k ++ ':' :: renderJ v := by
  rw [renderObjItems.eq_def]

theorem renderObjItems_cons (k : String) (v : JValue) (k2 : String) (w : JValue)
    (rest : JObj) :
    renderObjItems (.ocons k v (.ocons k2 w rest)) =
      renderStr k ++ ':' :: (renderJ v ++ ',' :: renderObjItems (.ocons k2 w rest)) := by
  rw [renderObjItems.eq_def]

/-- A digit character is none of the keyword or container head characters. -/
theorem digit_not_keyword (c : Char) (h : isDigitChar c = true) :
    (c == 'n') = false ∧ (c == 't') = false ∧ (c == 'f') = false ∧
    (c == '\x22') = false ∧ (c == '[') = false ∧ (c == '\x7b') = false := by
  unfold isDigitChar at h
  rw [Bool.and_eq_true, decide_eq_true_eq, decide_eq_true_eq] at h
  refine ⟨?_, ?_, ?_, ?_, ?_, ?_⟩ <;>
    (rw [beq_eq_false_iff_ne]; rintro rfl; revert h; decide)

/-- The head character of any rendered value is not a container delimiter. -/
theorem renderJ_head (v : JValue) :
    ∃ c t, renderJ v = c :: t ∧ (c == ']') = false ∧ (c == '\x7d') = false ∧
      (c == ',') = false := by
  cases v with
  | null => exact ⟨'n', _, renderJ_null, by decide, by decide, by decide⟩
  | jbool b =>
    cases b
    · exact ⟨'f', _, renderJ_false, by decide, by decide, by decide⟩
    · exact ⟨'t', _, renderJ_true, by decide, by decide, by decide⟩
  | jnum n =>
    obtain ⟨d, t, ht⟩ := renderNat_head n
    have hs := digitChar_spec d
    exact ⟨digitChar d, t, by rw [renderJ_num, ht],
      hs.2.2.2.2.2.2.2.1, hs.2.2.2.2.2.2.2.2.1, hs.2.2.2.2.2.2.2.2.2⟩
  | jstr s =>
    exact ⟨'\x22', _, by rw [renderJ_str]; rfl, by decide, by decide, by decide⟩
  | jarr a => exact ⟨'[', _, renderJ_arr a, by decide, by decide, by decide⟩
  | jobj o => exact ⟨'\x7b', _, renderJ_obj o, by decide, by decide, by decide⟩

/-- Unfolding equations of the parser on each head shape. -/
theorem parseJ_null (fuel : Nat) (r : List Char) :
    parseJ (fuel + 1) ('n' :: 'u' :: 'l' :: 'l' :: r) = some (.null, r) := by
  rw [parseJ.eq_def]
  simp

theorem parseJ_true (fuel : Nat) (r : List Char) :
    parseJ (fuel + 1) ('t' :: 'r' :: 'u' :: 'e' :: r) = some (.jbool true, r) := by
  rw [parseJ.eq_def]
  simp

theorem parseJ_false (fuel : Nat) (r : List Char) :
    parseJ (fuel + 1) ('f' :: 'a' :: 'l' :: 's' :: 'e' :: r) =
      some (.jbool false, r) := by
  rw [parseJ.eq_def]
  simp

theorem parseJ_quote (fuel : Nat) (rest : List Char) :
    parseJ (fuel + 1) ('\x22' :: rest) =
      match parseStrAux rest [] with
      | some (cs, r) => some (.jstr ⟨cs⟩, r)
      | none => none := by
  rw [parseJ.eq_def]
  simp

theorem parseJ_lbracket (fuel : Nat) (rest : List Char) :
    parseJ (fuel + 1) ('[' :: rest) =
      match parseArrElems fuel rest with
      | some (a, r) => some (.jarr a, r)
      | none => none := by
  rw [parseJ.eq_def]
  simp

theorem parseJ_lbrace (fuel : Nat) (rest : List Char) :
    parseJ (fuel + 1) ('\x7b' :: rest) =
      match parseObjElems fuel rest with
      | some (o, r) => some (.jobj o, r)
      | none => none := by
  rw [parseJ.eq_def]
  simp

theorem parseJ_digit (fuel : Nat) (c : Char) (rest : List Char)
    (h : isDigitChar c = true) :
    parseJ (fuel + 1) (c :: rest) =
      some (.jnum (parseNatAux (c :: rest) 0).1, (parseNatAux (c :: rest) 0).2) := by
  have hk := digit_not_keyword c h
  rw [parseJ.eq_def]
  simp [hk.1, hk.2.1, hk.2.2.1, hk.2.2.2.1, hk.2.2.2.2.1, hk.2.2.2.2.2, h]

theorem parseArrElems_rbracket (fuel : Nat) (rest : List Char) :
    parseArrElems (fuel + 1) (']' :: rest) = some (.anil, rest) := by
  rw [parseArrElems.eq_def]
  simp

theorem parseArrElems_step (fuel : Nat) (c : Char) (rest : List Char)
    (h : (c == ']') = false) :
    parseArrElems (fuel + 1) (c :: rest) =
      match parseJ fuel (c :: rest) with
      | some (v, r) =>
        match r with
        | d :: r2 =>
          if d == ',' then
            match parseArrElems fuel r2 with
            | some (a, r3) => some (.acons v a, r3)
            | none => none
          else if d == ']' then some (.acons v .anil, r2)
          else none
        | [] => none
      | none => none := by
  rw [parseArrElems.eq_def]
  simp [h]

theorem parseObjElems_rbrace (fuel : Nat) (rest : List Char) :
    parseObjElems (fuel + 1) ('\x7d' :: rest) = some (.onil, rest) := by
  rw [parseObjElems.eq_def]
  simp

theorem parseObjElems_key (fuel : Nat) (rest : List Char) :
    parseObjElems (fuel + 1) ('\x22' :: rest) =
      match parseStrAux rest [] with
      | some (kcs, r) =>
        match r with
        | d :: r2 =>
          if d == ':' then
            match parseJ fuel r2 with
            | some (v, r3) =>
              match r3 with
              | e :: r4 =>
                if e == ',' then
                  match parseObjElems fuel r4 with
                  | some (o, r5) => some (.ocons ⟨kcs⟩ v o, r5)
                  | none => none
                else if e == '\x7d' then some (.ocons ⟨kcs⟩ v .onil, r4)
                else none
              | [] => none
            | none => none
          else none
        | [] => none
      | none => none := by
  rw [parseObjElems.eq_def]
  simp

/-- Unfolding equations of the fuel measures. -/
theorem fuelV_null_eq : fuelV .null = 1 := by rw [fuelV.eq_def]

theorem fuelV_bool_eq (b : Bool) : fuelV (.jbool b) = 1 := by rw [fuelV.eq_def]

theorem fuelV_num_eq (n : Nat) : fuelV (.jnum n) = 1 := by rw [fuelV.eq_def]

theorem fuelV_str_eq (s : String) : fuelV (.jstr s) = 1 := by rw [fuelV.eq_def]

theorem fuelV_arr_eq (a : JArr) : fuelV (.jarr a) = fuelA a + 1 := by rw [fuelV.eq_def]

theorem fuelV_obj_eq (o : JObj) : fuelV (.jobj o) = fuelO o + 1 := by rw [fuelV.eq_def]

theorem fuelA_nil_eq : fuelA .anil = 1 := by rw [fuelA.eq_def]

theorem fuelA_cons_eq (v : JValue) (rest : JArr) :
    fuelA (.acons v rest) = max (fuelV v) (fuelA rest) + 1 := by rw [fuelA.eq_def]

theorem fuelO_nil_eq : fuelO .onil = 1 := by rw [fuelO.eq_def]

theorem fuelO_cons_eq (k : String) (v : JValue) (rest : JObj) :
    fuelO (.ocons k v rest) = max (fuelV v) (fuelO rest) + 1 := by rw [fuelO.eq_def]

theorem noDigitStart_cons (c : Char) (r : List Char)
    (h : isDigitChar c = false) : noDigitStart (c :: r) := h

mutual
/-- Parsing inverts rendering for a value, given sufficient fuel and a
remainder that does not continue a number. -/
theorem parse_renderJ (v : JValue) : ∀ (fuel : Nat) (rest : List Char),
    fuelV v ≤ fuel → noDigitStart rest →
    parseJ fuel (renderJ v ++ rest) = some (v, rest) := by
  cases v with
  | null =>
    intro fuel rest hf _
    rw [fuelV_null_eq] at hf
    obtain ⟨f, rfl⟩ : ∃ f, fuel = f + 1 := ⟨fuel - 1, by omega⟩
    rw [renderJ_null]
    exact parseJ_null f rest
  | jbool b =>
    intro fuel rest hf _
    rw [fuelV_bool_eq] at hf
    obtain ⟨f, rfl⟩ : ∃ f, fuel = f + 1 := ⟨fuel - 1, by omega⟩
    cases b
    · rw [renderJ_false]
      exact parseJ_false f rest
    · rw [renderJ_true]
      exact parseJ_true f rest
  | jnum n =>
    intro fuel rest hf hr
    rw [fuelV_num_eq] at hf
    obtain ⟨f, rfl⟩ : ∃ f, fuel = f + 1 := ⟨fuel - 1, by omega⟩
    rw [renderJ_num]
    obtain ⟨d, t, ht⟩ := renderNat_head n
    have hd := (digitChar_spec d).1
    rw [ht, List.cons_append, parseJ_digit f (digitChar d) (t ++ rest) hd]
    have hp := renderNat_parse n rest hr
    rw [ht, List.cons_append] at hp
    rw [hp]
  | jstr s =>
    intro fuel rest hf _
    rw [fuelV_str_eq] at hf
    obtain ⟨f, rfl⟩ : ∃ f, fuel = f + 1 := ⟨fuel - 1, by omega⟩
    rw [renderJ_str]
    unfold renderStr
    rw [List.cons_append, parseJ_quote]
    rw [show (s.data.flatMap escapeChar ++ ['\x22']) ++ rest =
        s.data.flatMap escapeChar ++ '\x22' :: rest from by simp]
    rw [parseStrAux_escape]
    simp [string_mk_data]
  | jarr a =>
    intro fuel rest hf _
    rw [fuelV_arr_eq] at hf
    obtain ⟨f, rfl⟩ : ∃ f, fuel = f + 1 := ⟨fuel - 1, by omega⟩
    rw [renderJ_arr, List.cons_append, parseJ_lbracket]
    rw [show (renderArrItems a ++ [']']) ++ rest =
        renderArrItems a ++ ']' :: rest from by simp]
    rw [parse_renderArr a f rest (by omega)]
  | jobj o =>
    intro fuel rest hf _
    rw [fuelV_obj_eq] at hf
    obtain ⟨f, rfl⟩ : ∃ f, fuel = f + 1 := ⟨fuel - 1, by omega⟩
    rw [renderJ_obj, List.cons_append, parseJ_lbrace]
    rw [show (renderObjItems o ++ ['\x7d']) ++ rest =
        renderObjItems o ++ '\x7d' :: rest from by simp]
    rw [parse_renderObj o f rest (by omega)]

/-- Parsing inverts rendering for the items of an array, consuming the
closing bracket. -/
theorem parse_renderArr (a : JArr) : ∀ (fuel : Nat) (rest : List Char),
    fuelA a ≤ fuel →
    parseArrElems fuel (renderArrItems a ++ ']' :: rest) = some (a, rest) := by
  cases a with
  | anil =>
    intro fuel rest hf
    rw [fuelA_nil_eq] at hf
    obtain ⟨f, rfl⟩ : ∃ f, fuel = f + 1 := ⟨fuel - 1, by omega⟩
    rw [renderArrItems_nil, List.nil_append]
    exact parseArrElems_rbracket f rest
  | acons v arest =>
    intro fuel rest hf
    rw [fuelA_cons_eq] at hf
    obtain ⟨f, rfl⟩ : ∃ f, fuel = f + 1 := ⟨fuel - 1, by omega⟩
    obtain ⟨c, t, hct, hc1, hc2, hc3⟩ := renderJ_head v
    have hfv : fuelV v ≤ f := by omega
    cases arest with
    | anil =>
      rw [renderArrItems_one, hct, List.cons_append,
        parseArrElems_step f c (t ++ ']' :: rest) hc1]
      have hv := parse_renderJ v f (']' :: rest) hfv
        (noDigitStart_cons _ _ (by decide))
      rw [hct, List.cons_append] at hv
      rw [hv]
      simp
    | acons w arest2 =>
      rw [renderArrItems_cons]
      rw [show (renderJ v ++ ',' :: renderArrItems (.acons w arest2)) ++ ']' :: rest =
          renderJ v ++ ',' :: (renderArrItems (.acons w arest2) ++ ']' :: rest) from
          by simp]
      rw [hct, List.cons_append, parseArrElems_step f c _ hc1]
      have hv := parse_renderJ v f
        (',' :: (renderArrItems (.acons w arest2) ++ ']' :: rest)) hfv
        (noDigitStart_cons _ _ (by decide))
      rw [hct, List.cons_append] at hv
      rw [hv]
      have hrec := parse_renderArr (.acons w arest2) f rest (by omega)
      simp [hrec]

/-- Parsing inverts rendering for the entries of an object, consuming the
closing brace. -/
theorem parse_renderObj (o : JObj) : ∀ (fuel : Nat) (rest : List Char),
    fuelO o ≤ fuel →
    parseObjElems fuel (renderObjItems o ++ '\x7d' :: rest) = some (o, rest) := by
  cases o with
  | onil =>
    intro fuel rest hf
    rw [fuelO_nil_eq] at hf
    obtain ⟨f, rfl⟩ : ∃ f, fuel = f + 1 := ⟨fuel - 1, by omega⟩
    rw [renderObjItems_nil, List.nil_append]
    exact parseObjElems_rbrace f rest
  | ocons k v orest =>
    intro fuel rest hf
    rw [fuelO_cons_eq] at hf
    obtain ⟨f, rfl⟩ : ∃ f, fuel = f + 1 := ⟨fuel - 1, by omega⟩
    have hfv : fuelV v ≤ f := by omega
    cases orest with
    | onil =>
      rw [renderObjItems_one]
      rw [show (renderStr k ++ ':' :: renderJ v) ++ '\x7d' :: rest =
          '\x22' :: (k.data.flatMap escapeChar ++
            '\x22' :: (':' :: (renderJ v ++ '\x7d' :: rest))) from by simp [renderStr]]
      rw [parseObjElems_key, parseStrAux_escape]
      have hv := parse_renderJ v f ('\x7d' :: rest) hfv
        (noDigitStart_cons _ _ (by decide))
      simp [hv, string_mk_data]
    | ocons k2 w orest2 =>
      rw [renderObjItems_cons]
      rw [show (renderStr k ++ ':' :: (renderJ v ++ ','
            :: renderObjItems (.ocons k2 w orest2))) ++ '\x7d' :: rest =
          '\x22' :: (k.data.flatMap escapeChar ++ '\x22' :: (':' :: (renderJ v ++
            ',' :: (renderObjItems (.ocons k2 w orest2) ++ '\x7d' :: rest)))) from
          by simp [renderStr]]
      rw [parseObjElems_key, parseStrAux_escape]
      have hv := parse_renderJ v f
        (',' :: (renderObjItems (.ocons k2 w orest2) ++ '\x7d' :: rest)) hfv
        (noDigitStart_cons _ _ (by decide))
      have hrec := parse_renderObj (.ocons k2 w orest2) f rest (by omega)
      simp [hv, hrec, string_mk_data]
end

mutual
/-- The fuel a value needs is bounded by the length of its rendering. -/
theorem fuelV_le_renderLen (v : JValue) : fuelV v ≤ (renderJ v).length + 1 := by
  cases v with
  | null => rw [fuelV_null_eq, renderJ_null]; simp
  | jbool b =>
    cases b
    · rw [fuelV_bool_eq, renderJ_false]; simp
    · rw [fuelV_bool_eq, renderJ_true]; simp
  | jnum n => rw [fuelV_num_eq]; omega
  | jstr s => rw [fuelV_str_eq]; omega
  | jarr a =>
    rw [fuelV_arr_eq, renderJ_arr]
    have h := fuelA_le_renderLen a
    simp only [List.length_cons, List.length_append, List.length_singleton]
    omega
  | jobj o =>
    rw [fuelV_obj_eq, renderJ_obj]
    have h := fuelO_le_renderLen o
    simp only [List.length_cons, List.length_append, List.length_singleton]
    omega
/-- The fuel an item list needs is bounded by the length of its rendering. -/
theorem fuelA_le_renderLen (a : JArr) : fuelA a ≤ (renderArrItems a).length + 2 := by
  cases a with
  | anil => rw [fuelA_nil_eq, renderArrItems_nil]; simp
  | acons v arest =>
    cases arest with
    | anil =>
      rw [fuelA_cons_eq, fuelA_nil_eq, renderArrItems_one]
      have h := fuelV_le_renderLen v
      omega
    | acons w arest2 =>
      rw [fuelA_cons_eq, renderArrItems_cons]
      have h1 := fuelV_le_renderLen v
      have h2 := fuelA_le_renderLen (.acons w arest2)
      simp only [List.length_append, List.length_cons]
      omega
/-- The fuel an entry list needs is bounded by the length of its rendering. -/
theorem fuelO_le_renderLen (o : JObj) : fuelO o ≤ (renderObjItems o).length + 2 := by
  cases o with
  | onil => rw [fuelO_nil_eq, renderObjItems_nil]; simp
  | ocons k v orest =>
    cases orest with
    | onil =>
      rw [fuelO_cons_eq, fuelO_nil_eq, renderObjItems_one]
      have h := fuelV_le_renderLen v
      simp only [List.length_append, List.length_cons]
      omega
    | ocons k2 w orest2 =>
      rw [fuelO_cons_eq, renderObjItems_cons]
      have h1 := fuelV_le_renderLen v
      have h2 := fuelO_le_renderLen (.ocons k2 w orest2)
      simp only [List.length_append, List.length_cons]
      omega
end

/-- Saving any document and loading it back reproduces the document. -/
theorem save_load_roundtrip (doc : JValue) :
    load_results (save_results doc) = some doc := by
  unfold load_results save_results
  have hdata : (String.mk (renderJ doc)).data = renderJ doc := rfl
  rw [hdata]
  have h := parse_renderJ doc ((renderJ doc).length + 1) []
    (le_trans (fuelV_le_renderLen doc) (by omega)) trivial
  rw [show renderJ doc ++ ([] : List Char) = renderJ doc from by simp] at h
  rw [h]

/-- C9.  Serializing an assembled analysis result (graph, file tree, grouped
issues, stats) to the persisted JSON text and loading that text back
reproduces the identical document: the round-trip is lossless. -/
theorem C9_results_roundtrip (graph file_tree issues stats : JValue) :
    load_results (save_results (assembled_result graph file_tree issues stats)) =
      some (assembled_result graph file_tree issues stats) :=
  save_load_roundtrip (assembled_result graph file_tree issues stats)
